import Mathlib

/-!
Verification of the bong-utils repository: the double-mapped SPSC byte ring
(src/ngpcap/ring32.h), the tap event loop and CLI checks (src/ngpcap/main.c),
and the portal wormhole operations (src/ngportal/wormhole.c, main.c).

Machine integers are embedded as `Nat`/`Int` with explicit reduction modulo
`2^32` (`uint32_t`) and `2^64` (`size_t`/`unsigned long`, LP64).  Pointers
returned by the buffer functions are modelled as byte offsets into the `data`
mapping, with `none` standing for NULL.
-/

set_option autoImplicit false

namespace BongUtils

/-- The modulus of `uint32_t` arithmetic, 2^32. -/
def U32 : Nat := 4294967296

/-- The modulus of `size_t`/`unsigned long` arithmetic on LP64, 2^64. -/
def U64 : Nat := 18446744073709551616

/-- Shallow embedding of `struct ring32` (src/ngpcap/ring32.h).  The two
mappings `maps.data` and `maps.copy` alias the same bytes; the claims below
concern only the counters, so the maps are not carried.  `end` is a Lean
keyword, hence the field name `end_`. -/
structure Ring32 where
  capacity : Nat
  mask : Nat
  start : Nat
  end_ : Nat
deriving DecidableEq

/-- The SANITY_CHECK conditions plus 32-bit representability of the fields:
capacity is a nonzero power of two fitting `uint32_t` and `mask = capacity - 1`
(so `capacity & mask == 0`). -/
def Ring32.Valid (rb : Ring32) : Prop :=
  rb.start < U32 ∧ rb.end_ < U32 ∧ 0 < rb.capacity ∧
  (∃ i, i ≤ 31 ∧ rb.capacity = 2 ^ i) ∧ rb.mask = rb.capacity - 1

/-- `ring32_count`: `end - start` computed in `uint32_t` arithmetic. -/
def ring32_count (rb : Ring32) : Nat :=
  (rb.end_ + U32 - rb.start) % U32

/-- `ring32_free`: `capacity - count` computed in `uint32_t` arithmetic. -/
def ring32_free (rb : Ring32) : Nat :=
  (rb.capacity + U32 - ring32_count rb) % U32

/-- `ring32_full`: `capacity == count`. -/
def ring32_full (rb : Ring32) : Bool :=
  rb.capacity == ring32_count rb

/-- `ring32_empty`: `start == end`. -/
def ring32_empty (rb : Ring32) : Bool :=
  rb.start == rb.end_

/-- `ring32_read_buffer`: the returned pointer is `&data[end & mask]` when
`free > 0` and NULL otherwise (modelled as the offset wrapped in `Option`);
the second component is the value stored through `nbytes`. -/
def ring32_read_buffer (rb : Ring32) : Option Nat × Nat :=
  let avail := ring32_free rb
  (if 0 < avail then some (rb.end_ &&& rb.mask) else none, avail)

/-- `ring32_write_buffer`: `&data[start & mask]` when `count > 0`, NULL
otherwise; `nbytes` receives `count`. -/
def ring32_write_buffer (rb : Ring32) : Option Nat × Nat :=
  let count := ring32_count rb
  (if 0 < count then some (rb.start &&& rb.mask) else none, count)

/-- `ring32_read_advance` (NDEBUG build): only `nread == -1` is the failed-IO
no-op; otherwise `index.end += nread`, where the `ssize_t` addend is converted
to `uint32_t`, i.e. the sum is reduced modulo 2^32.  The debug-build
`assert(nread <= rb->capacity)` compares signed values and holds in every
state considered by the theorems below. -/
def ring32_read_advance (rb : Ring32) (nread : Int) : Ring32 × Int :=
  if nread = -1 then (rb, nread)
  else ({ rb with end_ := ((((rb.end_ : Int) + nread) % 4294967296).toNat) }, nread)

/-- `ring32_write_advance`: symmetric to `ring32_read_advance` for
`index.start`. -/
def ring32_write_advance (rb : Ring32) (nwrit : Int) : Ring32 × Int :=
  if nwrit = -1 then (rb, nwrit)
  else ({ rb with start := ((((rb.start : Int) + nwrit) % 4294967296).toNat) }, nwrit)

/-- One legal ring mutation as performed by the tap's callbacks: a
`ring32_read_advance` of at most `free` bytes or a `ring32_write_advance` of
at most `count` bytes, each nonnegative. -/
inductive RingStep : Ring32 → Ring32 → Prop
  | read (rb : Ring32) (k : Int) : 0 ≤ k → k ≤ (ring32_free rb : Int) →
      RingStep rb (ring32_read_advance rb k).1
  | write (rb : Ring32) (k : Int) : 0 ≤ k → k ≤ (ring32_count rb : Int) →
      RingStep rb (ring32_write_advance rb k).1

/-- Reachability by any finite sequence of legal ring mutations. -/
def RingReach (a b : Ring32) : Prop := Relation.ReflTransGen RingStep a b

/-- The inductive well-formedness carried along executions: 32-bit counters,
the capacity invariant `count <= capacity`, and `capacity <= 2^31` (a power
of two representable in `uint32_t`). -/
def RingWF (rb : Ring32) : Prop :=
  rb.start < U32 ∧ rb.end_ < U32 ∧ ring32_count rb ≤ rb.capacity ∧
  rb.capacity ≤ 2147483648

/-- Kernel-side state of one registered kevent entry: its enable bit and
whether EV_DISPATCH semantics have been applied to it.  Registration at
src/ngpcap/main.c:428-437 uses `EV_ADD` with neither `EV_DISABLE` nor
`EV_DISPATCH`, and kevent(2) specifies that an added event is enabled by
default; the comment at main.c:431 ("register events, leave disabled")
believes otherwise. -/
structure EvState where
  enabled : Bool
  dispatch : Bool
deriving DecidableEq

/-- An entry as just registered by `EV_SET(..., EV_ADD, 0, 0, cb)`: enabled,
without dispatch-once semantics. -/
def evAdded : EvState := ⟨true, false⟩

/-- State of the tap's event loop between two blocking `kevent` calls: the
ring plus the kernel-side state of the two registered entries (READ on the
data socket, WRITE on stdout). -/
structure LoopState where
  ring : Ring32
  readEv : EvState
  writeEv : EvState
deriving DecidableEq

/-- The change-list built at the top of each iteration of the event loop in
`main` (src/ngpcap/main.c:442-463): READ is included with
`EV_ENABLE | EV_DISPATCH` iff `ring32_free >= snaplen`, WRITE iff the ring
is non-empty; a side failing its test is left out of the change list
(`chg++` / `nchg--`), so its kernel-side state is untouched. -/
def applyChanges (snaplen : Nat) (s : LoopState) : LoopState :=
  { s with
    readEv := if snaplen ≤ ring32_free s.ring then ⟨true, true⟩ else s.readEv
    writeEv := if ring32_empty s.ring then s.writeEv else ⟨true, true⟩ }

/-- Effect of a delivered notification on the entry itself: with EV_DISPATCH
the kernel disables the entry as the event is delivered, without it the
entry stays enabled (kevent(2)). -/
def afterDeliver (ev : EvState) : EvState := ⟨!ev.dispatch, ev.dispatch⟩

/-- Delivery of one readiness notification.  An entry fires only while
enabled, and `afterDeliver` applies its dispatch semantics.  The READ
callback `read_event` performs one `read` of at most `free` bytes into
`ring32_read_buffer` and commits it with `ring32_read_advance`; the WRITE
callback `write_event` writes at most `count` bytes from
`ring32_write_buffer`.  A failed IO (advance of -1) and a 0-byte transfer
both leave the ring unchanged, so `k = 0` covers them. -/
inductive Deliver : LoopState → LoopState → Prop
  | read (s : LoopState) (k : Int) : s.readEv.enabled = true → 0 ≤ k →
      k ≤ (ring32_free s.ring : Int) →
      Deliver s ⟨(ring32_read_advance s.ring k).1, afterDeliver s.readEv, s.writeEv⟩
  | write (s : LoopState) (k : Int) : s.writeEv.enabled = true → 0 ≤ k →
      k ≤ (ring32_count s.ring : Int) →
      Deliver s ⟨(ring32_write_advance s.ring k).1, s.readEv, afterDeliver s.writeEv⟩

/-- One full iteration of the event loop, blocking point to blocking point:
the deliveries of one wake-up (zero or more, each subject to its entry's
dispatch semantics) followed by the next change list. -/
def LoopIter (snaplen : Nat) (s s' : LoopState) : Prop :=
  ∃ m, Relation.ReflTransGen Deliver s m ∧ s' = applyChanges snaplen m

/-- Reachability through iterations of the event loop. -/
def LoopReach (snaplen : Nat) (s s' : LoopState) : Prop :=
  Relation.ReflTransGen (LoopIter snaplen) s s'

/-- One `npage |= npage >> d` step of `calc_lgpages`. -/
def orShift (d m : Nat) : Nat := m ||| (m >>> d)

/-- The five `|=` steps of `calc_lgpages`, shifts 1, 2, 4, 8, 16 in order. -/
def saturate (m : Nat) : Nat :=
  orShift 16 (orShift 8 (orShift 4 (orShift 2 (orShift 1 m))))

/-- Iterated saturation with shifts `2^0, ..., 2^(k-1)`; `satAux 5 = saturate`
(proved below), used to reason about the bit pattern by induction. -/
def satAux : Nat → Nat → Nat
  | 0, m => m
  | k + 1, m => orShift (2 ^ k) (satAux k m)

/-- `ffsl(3)`: 1-based index of the least significant set bit, 0 for 0. -/
def ffsl (n : Nat) : Nat :=
  if h : n = 0 then 0
  else if n % 2 = 1 then 1
  else ffsl (n / 2) + 1
decreasing_by exact Nat.div_lt_self (Nat.pos_of_ne_zero h) (by omega)

/-- `calc_lgpages` (src/ngpcap/main.c:204-226): round `size` up to whole
pages, round the page count up to a power of two with the shift-or cascade,
and return its binary log via `ffsl`.  `size_t` arithmetic is reduced modulo
2^64 and the final `uint8_t` cast modulo 256.  `pagesz` is the value of
`getpagesize()`. -/
def calc_lgpages (pagesz size : Nat) : Nat :=
  let npage := ((size + pagesz - 1) % U64) / pagesz
  let m := saturate ((npage + U64 - 1) % U64)
  (ffsl ((m + 1) % U64) - 1) % 256

/-- Modelled from the spec: `NG_PCAP_PKT_TYPE_LENGTH` is defined in
`netgraph/ng_pcap.h`, which is not part of src/.  The spec fixes the
capture-spec count bound at 32 ("Up to 32 specs"), matching the program's
usage text, which advertises `NG_PCAP_MAX_LINKS` specifications (also the
size of the `intercepts` array). -/
def NG_PCAP_PKT_TYPE_LENGTH : Nat := 32

/-- Modelled from the spec: the maximum number of capture specifications,
"Up to 32 specs" (netgraph/ng_pcap.h is not part of src/). -/
def NG_PCAP_MAX_LINKS : Nat := 32

/-- The spec-count validation of `main` (src/ngpcap/main.c:366-372): fewer
than one spec or more than the bound calls `Usage`, which exits with
`EX_USAGE` = 64. -/
def spec_count_check (argc : Nat) : Except Nat Unit :=
  if argc < 1 then .error 64
  else if NG_PCAP_PKT_TYPE_LENGTH < argc then .error 64
  else .ok ()

/-- Reinterpretation of a value already reduced modulo 2^32 as `int32_t`
(two's complement). -/
def toInt32 (v : Nat) : Int :=
  if v < 2147483648 then (v : Int) else (v : Int) - (U32 : Int)

/-- `strtoul(optarg, &ep, 10)` on a string that is a decimal numeral of value
`v` (LP64 `unsigned long`): the result saturates at `ULONG_MAX` with
`ERANGE`, which the caller never inspects. -/
def strtoul10 (v : Nat) : Nat := min v (U64 - 1)

/-- The `-s` option argument as seen by `main`: absent, not a pure decimal
numeral (some character left in `*ep`), or a numeral of value `v`. -/
inductive SnapArg
  | absent
  | nonInteger
  | numeral (v : Nat)

/-- The `-s` handling of `main` (src/ngpcap/main.c:334-355) together with the
default: `maybe = (int32_t) strtoul(optarg, &ep, 10)`; trailing junk, or
`maybe` above `NG_PACP_MAX_SNAPLEN` (`maxS`) or below `NG_PACP_MIN_SNAPLEN`
(`minS`), calls `Usage` (exit 64, modelled `none`); otherwise
`snaplen = maybe`.  Without `-s`, `snaplen = NG_PACP_MAX_SNAPLEN`.  The two
bounds live in `netgraph/ng_pcap.h`, not part of src/, and are parameters. -/
def snaplen_of_arg (minS maxS : Int) : SnapArg → Option Int
  | .absent => some maxS
  | .nonInteger => none
  | .numeral v =>
    let maybe := toInt32 (strtoul10 v % U32)
    if maxS < maybe then none
    else if maybe < minS then none
    else some maybe

/-- FreeBSD `errno` value for an invalid argument. -/
def EINVAL : Nat := 22

/-- FreeBSD `errno` value for a programming error (would-loop here). -/
def EDOOFUS : Nat := 88

/-- Modelled from the spec: the wormhole hook name constant
`NG_WORMHOLE_HOOK` is defined in `netgraph/ng_wormhole.h`, absent from src/;
the claims depend only on string identity with it, not on its spelling. -/
def NG_WORMHOLE_HOOK : String := "wormhole"

/-- Diagnostic selected by `wh_connect` when the `NGM_CONNECT` fails; the
constructors carry the endpoint strings each `err` call quotes. -/
inductive WhDiag
  | farSideNotOpened (farEnd : String)
  | wouldLoop
  | generic (ourEnd farEnd : String)
deriving DecidableEq

/-- Error classification of a failed `NGM_CONNECT` in `wh_connect`
(src/ngportal/wormhole.c:115-147).  `pth` is the `[%08x]:` path of the
wormhole, whose own hook is always `NG_WORMHOLE_HOOK` (the `msg` initializer);
`path` and `peerhook` are the peer endpoint.  A peer hook other than
`NG_WORMHOLE_HOOK` goes straight to the generic diagnostic; on the wormhole
hook, `EINVAL` means the far side is not opened and `EDOOFUS` that the
collapse would leave connected wormholes in one vnet.  Every branch calls
`err(EX_DATAERR, ...)`, exit code 65. -/
def wh_connect_classify (pth path peerhook : String) (e : Nat) : WhDiag × Nat :=
  if peerhook ≠ NG_WORMHOLE_HOOK then
    (.generic (pth ++ NG_WORMHOLE_HOOK) (path ++ peerhook), 65)
  else if e = EINVAL then (.farSideNotOpened (path ++ peerhook), 65)
  else if e = EDOOFUS then (.wouldLoop, 65)
  else (.generic (pth ++ NG_WORMHOLE_HOOK) (path ++ peerhook), 65)

/-- A control message sent over the control socket (only the shapes the
claims need; the path to a wormhole is determined by its numeric id). -/
inductive NgMsg
  | name (wh : Nat) (nm : String)
  | connect (wh : Nat) (peer peerhook : String)
deriving DecidableEq

/-- The messages sent by `wh_name` (src/ngportal/wormhole.c:69-91): with a
NULL name it returns before building or sending anything; otherwise it sends
one `NGM_NAME`. -/
def wh_name (wh : Nat) (nm : Option String) : List NgMsg :=
  match nm with
  | none => []
  | some s => [.name wh s]

/-- The messages sent by `wh_connect` (src/ngportal/wormhole.c:93-116): with
a NULL peer it returns before sending; otherwise one `NGM_CONNECT` with
`msg.path = peer ++ ":"`.  When the peer is present the code asserts
`peerhook != NULL`, so the `getD` default is never exercised. -/
def wh_connect_msgs (wh : Nat) (peer peerhook : Option String) : List NgMsg :=
  match peer with
  | none => []
  | some p => [.connect wh (p ++ ":") (peerhook.getD "")]

/-- Whether `jail_name_connect` (src/ngportal/main.c:165-207) forks a helper
child: it returns before `fork()` when both the name and the node are
absent. -/
def jail_name_connect_forks (nm node : Option String) : Bool :=
  !(nm.isNone && node.isNone)

theorem ring32_free_eq (rb : Ring32) (hinv : ring32_count rb ≤ rb.capacity)
    (hcap : rb.capacity < U32) :
    ring32_free rb = rb.capacity - ring32_count rb := by
  simp only [ring32_free, U32] at *
  omega

theorem count_read_advance (rb : Ring32) (k : Int) (hs : rb.start < U32)
    (he : rb.end_ < U32) (hinv : ring32_count rb ≤ rb.capacity)
    (hcap : rb.capacity ≤ 2147483648) (h0 : 0 ≤ k)
    (hk : k ≤ (ring32_free rb : Int)) :
    (ring32_read_advance rb k).1.start = rb.start ∧
    (ring32_read_advance rb k).1.end_ < U32 ∧
    (ring32_read_advance rb k).1.capacity = rb.capacity ∧
    (ring32_read_advance rb k).1.mask = rb.mask ∧
    ring32_count (ring32_read_advance rb k).1 = ring32_count rb + k.toNat := by
  have hne : ¬ (k = -1) := by omega
  simp only [ring32_read_advance, if_neg hne]
  refine ⟨?_, ?_, ?_, ?_, ?_⟩ <;>
    first
    | trivial
    | (simp only [ring32_count, ring32_free, U32] at *; omega)

theorem count_write_advance (rb : Ring32) (k : Int) (hs : rb.start < U32)
    (he : rb.end_ < U32) (hinv : ring32_count rb ≤ rb.capacity)
    (hcap : rb.capacity ≤ 2147483648) (h0 : 0 ≤ k)
    (hk : k ≤ (ring32_count rb : Int)) :
    (ring32_write_advance rb k).1.end_ = rb.end_ ∧
    (ring32_write_advance rb k).1.start < U32 ∧
    (ring32_write_advance rb k).1.capacity = rb.capacity ∧
    (ring32_write_advance rb k).1.mask = rb.mask ∧
    ring32_count (ring32_write_advance rb k).1 = ring32_count rb - k.toNat := by
  have hne : ¬ (k = -1) := by omega
  simp only [ring32_write_advance, if_neg hne]
  refine ⟨?_, ?_, ?_, ?_, ?_⟩ <;>
    first
    | trivial
    | (simp only [ring32_count, U32] at *; omega)

theorem ringWF_of_init {rb : Ring32} (hv : rb.Valid) (hse : rb.start = rb.end_) :
    RingWF rb := by
  obtain ⟨hs, he, hpos, ⟨i, hi, hcap⟩, hmask⟩ := hv
  have h31 : rb.capacity ≤ 2147483648 := by
    rw [hcap]
    calc (2 : Nat) ^ i ≤ 2 ^ 31 := Nat.pow_le_pow_right (by norm_num) hi
    _ = 2147483648 := by norm_num
  refine ⟨hs, he, ?_, h31⟩
  simp only [ring32_count, U32] at *
  omega

theorem ringStep_wf {a b : Ring32} (h : RingWF a) (st : RingStep a b) : RingWF b := by
  obtain ⟨hs, he, hinv, hcap⟩ := h
  cases st with
  | read k h0 hk =>
    obtain ⟨h1, h2, h3, _, h5⟩ := count_read_advance a k hs he hinv hcap h0 hk
    have hfree := ring32_free_eq a hinv (by simp only [U32]; omega)
    refine ⟨by rw [h1]; exact hs, h2, ?_, by rw [h3]; exact hcap⟩
    rw [h5, h3]
    omega
  | write k h0 hk =>
    obtain ⟨h1, h2, h3, _, h5⟩ := count_write_advance a k hs he hinv hcap h0 hk
    refine ⟨h2, by rw [h1]; exact he, ?_, by rw [h3]; exact hcap⟩
    rw [h5, h3]
    omega

/-- Claim C1: every ring state reachable from a valid initial state
(`start = end`, capacity a nonzero power of two) by `ring32_read_advance`
with `0 <= k <= free` and `ring32_write_advance` with `0 <= k <= count`
satisfies the invariant `(end - start) mod 2^32 <= capacity`; every such
ring operation preserves it. -/
theorem ring32_reachable_invariant (a b : Ring32) (hv : a.Valid)
    (hse : a.start = a.end_) (h : RingReach a b) :
    ring32_count b ≤ b.capacity := by
  have hwf : RingWF b := by
    induction h with
    | refl => exact ringWF_of_init hv hse
    | tail _ st ih => exact ringStep_wf ih st
  exact hwf.2.2.1

theorem ring32_reachable_invariant_witness :
    ring32_count ⟨4096, 4095, 0, 0⟩ ≤ (4096 : Nat) :=
  ring32_reachable_invariant ⟨4096, 4095, 0, 0⟩ ⟨4096, 4095, 0, 0⟩
    ⟨by norm_num [U32], by norm_num [U32], by norm_num, ⟨12, by norm_num, by norm_num⟩,
      by norm_num⟩
    rfl Relation.ReflTransGen.refl

/-- Claim C2: under the capacity invariant, `ring32_count` is
`(end - start) mod 2^32`, `ring32_free` is `capacity - count` (also stated
additively), `ring32_full` holds iff `count = capacity` and `ring32_empty`
holds iff `start = end`, for all 32-bit counter values, wrapped included. -/
theorem ring32_count_formulas (rb : Ring32) (hs : rb.start < U32)
    (he : rb.end_ < U32) (hcap : rb.capacity < U32)
    (hinv : ring32_count rb ≤ rb.capacity) :
    ((ring32_count rb : Int) = ((rb.end_ : Int) - (rb.start : Int)) % (U32 : Int)) ∧
    ring32_free rb = rb.capacity - ring32_count rb ∧
    ring32_free rb + ring32_count rb = rb.capacity ∧
    (ring32_full rb = true ↔ ring32_count rb = rb.capacity) ∧
    (ring32_empty rb = true ↔ rb.start = rb.end_) := by
  refine ⟨?_, ?_, ?_, ?_, ?_⟩
  · simp only [ring32_count, U32] at *
    omega
  · exact ring32_free_eq rb hinv hcap
  · have := ring32_free_eq rb hinv hcap
    omega
  · simp only [ring32_full, beq_iff_eq]
    exact eq_comm
  · simp only [ring32_empty, beq_iff_eq]

theorem ring32_count_formulas_witness :
    ((ring32_count ⟨4096, 4095, 4294967290, 10⟩ : Int) =
      ((10 : Int) - (4294967290 : Int)) % (U32 : Int)) ∧
    ring32_free ⟨4096, 4095, 4294967290, 10⟩ =
      4096 - ring32_count ⟨4096, 4095, 4294967290, 10⟩ ∧
    ring32_free ⟨4096, 4095, 4294967290, 10⟩ +
      ring32_count ⟨4096, 4095, 4294967290, 10⟩ = 4096 ∧
    (ring32_full ⟨4096, 4095, 4294967290, 10⟩ = true ↔
      ring32_count ⟨4096, 4095, 4294967290, 10⟩ = 4096) ∧
    (ring32_empty ⟨4096, 4095, 4294967290, 10⟩ = true ↔
      (4294967290 : Nat) = 10) :=
  ring32_count_formulas ⟨4096, 4095, 4294967290, 10⟩ (by decide) (by decide)
    (by decide) (by decide)

/-- Claim C3 counterexample: on a valid full ring `ring32_read_buffer`
returns NULL rather than `&data[end & mask]`, and on a valid empty ring
`ring32_write_buffer` returns NULL rather than `&data[start & mask]`. -/
theorem ring32_buffer_counterexample :
    Ring32.Valid ⟨4096, 4095, 0, 4096⟩ ∧
    (ring32_read_buffer ⟨4096, 4095, 0, 4096⟩).1 ≠ some ((4096 : Nat) &&& 4095) ∧
    Ring32.Valid ⟨4096, 4095, 0, 0⟩ ∧
    (ring32_write_buffer ⟨4096, 4095, 0, 0⟩).1 ≠ some ((0 : Nat) &&& 4095) := by
  refine ⟨⟨?_, ?_, ?_, ⟨12, ?_, ?_⟩, ?_⟩, ?_, ⟨?_, ?_, ?_, ⟨12, ?_, ?_⟩, ?_⟩, ?_⟩ <;> decide

/-- Claim C3 (amended): `ring32_read_buffer` returns `&data[end & mask]`
with `n = free` when `free > 0` and NULL with `n = 0` when the ring is full;
`ring32_write_buffer` symmetrically returns `&data[start & mask]` with
`n = count` when `count > 0` and NULL with `n = 0` when empty. -/
theorem ring32_buffer_amended (rb : Ring32) (_hv : rb.Valid)
    (_hinv : ring32_count rb ≤ rb.capacity) :
    (0 < ring32_free rb →
      ring32_read_buffer rb = (some (rb.end_ &&& rb.mask), ring32_free rb)) ∧
    (ring32_free rb = 0 → ring32_read_buffer rb = (none, 0)) ∧
    (0 < ring32_count rb →
      ring32_write_buffer rb = (some (rb.start &&& rb.mask), ring32_count rb)) ∧
    (ring32_count rb = 0 → ring32_write_buffer rb = (none, 0)) := by
  refine ⟨?_, ?_, ?_, ?_⟩ <;> intro h <;>
    simp [ring32_read_buffer, ring32_write_buffer, h]

theorem ring32_buffer_amended_witness :
    ring32_read_buffer ⟨4096, 4095, 0, 5⟩ =
      (some ((5 : Nat) &&& 4095), ring32_free ⟨4096, 4095, 0, 5⟩) ∧
    ring32_write_buffer ⟨4096, 4095, 0, 5⟩ =
      (some ((0 : Nat) &&& 4095), ring32_count ⟨4096, 4095, 0, 5⟩) :=
  ⟨(ring32_buffer_amended ⟨4096, 4095, 0, 5⟩
      ⟨by decide, by decide, by decide, ⟨12, by decide, by decide⟩, by decide⟩
      (by decide)).1 (by decide),
   (ring32_buffer_amended ⟨4096, 4095, 0, 5⟩
      ⟨by decide, by decide, by decide, ⟨12, by decide, by decide⟩, by decide⟩
      (by decide)).2.2.1 (by decide)⟩

/-- Claim C4 counterexample: on a valid ring, `ring32_read_advance` with
`k = -2` (negative, so the claim demands a no-op) does advance `end`, to
`2^32 - 2`; the code treats only `k = -1` as the failed-IO no-op. -/
theorem ring32_advance_counterexample :
    Ring32.Valid ⟨4096, 4095, 0, 0⟩ ∧
    (ring32_read_advance ⟨4096, 4095, 0, 0⟩ (-2)).1.end_ ≠ (0 : Nat) ∧
    (ring32_write_advance ⟨4096, 4095, 0, 0⟩ (-2)).1.start ≠ (0 : Nat) := by
  refine ⟨⟨?_, ?_, ?_, ⟨12, ?_, ?_⟩, ?_⟩, ?_, ?_⟩ <;> decide

/-- Claim C4 (amended): `ring32_read_advance(rb, k)` is a no-op returning `k`
exactly when `k = -1` (the failed-IO return); for `0 <= k <= capacity` it
adds `k` to `end` modulo 2^32, leaves `start` unchanged and returns `k`;
`ring32_write_advance` is symmetric for `start`.  (For `k <= -2` the counter
is advanced by `k mod 2^32`, as the counterexample shows.) -/
theorem ring32_advance_amended (rb : Ring32) (k : Int) (_hv : rb.Valid) :
    (k = -1 → ring32_read_advance rb k = (rb, k) ∧
      ring32_write_advance rb k = (rb, k)) ∧
    (0 ≤ k → k ≤ (rb.capacity : Int) →
      ((ring32_read_advance rb k).1.start = rb.start ∧
       ((ring32_read_advance rb k).1.end_ : Int) =
         ((rb.end_ : Int) + k) % (U32 : Int) ∧
       (ring32_read_advance rb k).2 = k) ∧
      ((ring32_write_advance rb k).1.end_ = rb.end_ ∧
       ((ring32_write_advance rb k).1.start : Int) =
         ((rb.start : Int) + k) % (U32 : Int) ∧
       (ring32_write_advance rb k).2 = k)) := by
  constructor
  · intro h
    subst h
    constructor <;> simp [ring32_read_advance, ring32_write_advance]
  · intro h0 _
    have hne : ¬ (k = -1) := by omega
    simp only [ring32_read_advance, ring32_write_advance, if_neg hne]
    refine ⟨⟨?_, ?_, ?_⟩, ?_, ?_, ?_⟩ <;>
    first
    | trivial
    | (simp only [U32]; push_cast; omega)

theorem ring32_advance_amended_witness :
    ((ring32_read_advance ⟨4096, 4095, 0, 0⟩ 7).1.start = (0 : Nat) ∧
     (((ring32_read_advance ⟨4096, 4095, 0, 0⟩ 7).1.end_ : Int) =
       ((0 : Int) + 7) % (U32 : Int)) ∧
     (ring32_read_advance ⟨4096, 4095, 0, 0⟩ 7).2 = 7) ∧
    ((ring32_write_advance ⟨4096, 4095, 0, 0⟩ 7).1.end_ = (0 : Nat) ∧
     (((ring32_write_advance ⟨4096, 4095, 0, 0⟩ 7).1.start : Int) =
       ((0 : Int) + 7) % (U32 : Int)) ∧
     (ring32_write_advance ⟨4096, 4095, 0, 0⟩ 7).2 = 7) :=
  (ring32_advance_amended ⟨4096, 4095, 0, 0⟩ 7
    ⟨by decide, by decide, by decide, ⟨12, by decide, by decide⟩, by decide⟩).2
    (by decide) (by decide)

/-- The tap's first blocking point for a concrete run (snaplen 96, one-page
empty ring): both entries registered with `EV_ADD` (`evAdded`), then the
first change list applied. -/
def tapFirstBlock : LoopState :=
  applyChanges 96 ⟨⟨4096, 4095, 0, 0⟩, evAdded, evAdded⟩

/-- Claim C5 refutation and bug evaluation: the claim (like the comment at
src/ngpcap/main.c:431, "register events, leave disabled") requires each
entry to be enabled iff its ring condition holds, with dispatch-once
delivery.  But registration (main.c:428-437) uses `EV_ADD` with neither
`EV_DISABLE` nor `EV_DISPATCH`, which enables both entries (kevent(2)), and
an empty ring keeps WRITE out of every change list: at the first blocking
point (snaplen 96, one-page empty ring) the ring is empty while the WRITE
entry is enabled and without EV_DISPATCH, so the claimed iff fails; the
spurious writable notification delivers a zero-byte write, leaves the loop
state unchanged (`Deliver b0 b0`), and a whole iteration returns to the
same blocking state (`LoopIter 96 b0 b0`): the loop busy-spins until the
ring first becomes non-empty. -/
theorem tap_loop_write_enabled_while_empty :
    ring32_empty tapFirstBlock.ring = true ∧
    tapFirstBlock.writeEv.enabled = true ∧
    tapFirstBlock.writeEv.dispatch = false ∧
    Deliver tapFirstBlock tapFirstBlock ∧
    LoopIter 96 tapFirstBlock tapFirstBlock := by
  have hd0 : Deliver tapFirstBlock tapFirstBlock := by
    have hd : Deliver tapFirstBlock
        ⟨(ring32_write_advance tapFirstBlock.ring 0).1, tapFirstBlock.readEv,
          afterDeliver tapFirstBlock.writeEv⟩ :=
      Deliver.write tapFirstBlock 0 (by decide) (by decide) (by decide)
    have heq : (⟨(ring32_write_advance tapFirstBlock.ring 0).1, tapFirstBlock.readEv,
        afterDeliver tapFirstBlock.writeEv⟩ : LoopState) = tapFirstBlock := by decide
    exact heq ▸ hd
  exact ⟨by decide, by decide, by decide, hd0,
    ⟨tapFirstBlock, Relation.ReflTransGen.single hd0, by decide⟩⟩

theorem ffsl_two_pow (k : Nat) : ffsl (2 ^ k) = k + 1 := by
  induction k with
  | zero =>
    rw [pow_zero, ffsl]
    norm_num
  | succ k ih =>
    rw [ffsl]
    rw [dif_neg (by have := Nat.two_pow_pos (k + 1); omega)]
    rw [if_neg (by rw [pow_succ, Nat.mul_mod_left]; omega)]
    rw [(by rw [pow_succ, Nat.mul_div_cancel _ (by norm_num)] : 2 ^ (k + 1) / 2 = 2 ^ k)]
    rw [ih]

theorem orShift_testBit (d m i : Nat) :
    (orShift d m).testBit i = (m.testBit i || m.testBit (i + d)) := by
  simp [orShift, Nat.testBit_lor, Nat.testBit_shiftRight, Nat.add_comm]

theorem saturate_eq_satAux (m : Nat) : saturate m = satAux 5 m := rfl

theorem satAux_testBit (k m i : Nat) :
    ((satAux k m).testBit i = true) ↔ ∃ o, o < 2 ^ k ∧ m.testBit (i + o) = true := by
  induction k generalizing i with
  | zero =>
    simp only [satAux, pow_zero]
    constructor
    · intro h
      exact ⟨0, by omega, by simpa using h⟩
    · rintro ⟨o, ho, h⟩
      have ho0 : o = 0 := by omega
      subst ho0
      simpa using h
  | succ k ih =>
    have hpos := Nat.two_pow_pos k
    simp only [satAux, orShift_testBit, Bool.or_eq_true, ih]
    constructor
    · rintro (⟨o, ho, h⟩ | ⟨o, ho, h⟩)
      · exact ⟨o, by rw [pow_succ]; omega, h⟩
      · refine ⟨2 ^ k + o, by rw [pow_succ]; omega, ?_⟩
        rw [← Nat.add_assoc]
        exact h
    · rintro ⟨o, ho, h⟩
      rw [pow_succ] at ho
      by_cases hlt : o < 2 ^ k
      · exact Or.inl ⟨o, hlt, h⟩
      · refine Or.inr ⟨o - 2 ^ k, by omega, ?_⟩
        rw [(by omega : i + 2 ^ k + (o - 2 ^ k) = i + o)]
        exact h

theorem testBit_log2_self {m : Nat} (hm : m ≠ 0) : m.testBit m.log2 = true := by
  have h1 : 2 ^ m.log2 ≤ m := Nat.log2_self_le hm
  have h2 : m < 2 ^ (m.log2 + 1) := Nat.lt_log2_self
  have hdiv : m / 2 ^ m.log2 = 1 := by
    apply Nat.div_eq_of_lt_le (by omega)
    rw [(by ring : (1 + 1) * 2 ^ m.log2 = 2 ^ (m.log2 + 1))] at *
    omega
  rw [Nat.testBit_to_div_mod, hdiv]
  norm_num

theorem testBit_false_of_log2_lt {m i : Nat} (h : m.log2 < i) : m.testBit i = false := by
  by_cases hm : m = 0
  · subst hm
    exact Nat.zero_testBit i
  · have h2 : m < 2 ^ (m.log2 + 1) := Nat.lt_log2_self
    have h3 : (2 : Nat) ^ (m.log2 + 1) ≤ 2 ^ i := Nat.pow_le_pow_right (by norm_num) (by omega)
    rw [Nat.testBit_to_div_mod, Nat.div_eq_of_lt (by omega)]
    norm_num

theorem saturate_spec {m : Nat} (h1 : 1 ≤ m) (h2 : m < 4294967296) :
    saturate m = 2 ^ (m.log2 + 1) - 1 := by
  have hL : m.log2 < 32 := by
    rw [Nat.log2_lt (by omega)]
    norm_num
    omega
  rw [saturate_eq_satAux]
  apply Nat.eq_of_testBit_eq
  intro i
  rw [Nat.testBit_two_pow_sub_one]
  by_cases hi : i ≤ m.log2
  · have hbit : (satAux 5 m).testBit i = true :=
      (satAux_testBit 5 m i).mpr
        ⟨m.log2 - i, by norm_num; omega,
         by rw [(by omega : i + (m.log2 - i) = m.log2)]; exact testBit_log2_self (by omega)⟩
    rw [hbit]
    symm
    rw [decide_eq_true_eq]
    omega
  · have hbit : (satAux 5 m).testBit i = false := by
      rw [← Bool.not_eq_true]
      intro hc
      obtain ⟨o, ho, hb⟩ := (satAux_testBit 5 m i).mp hc
      rw [testBit_false_of_log2_lt (by omega)] at hb
      exact Bool.false_ne_true hb
    rw [hbit]
    symm
    rw [decide_eq_false_iff_not]
    omega

theorem ceil_div_ge (p s : Nat) (hp : 0 < p) : s ≤ p * ((s + p - 1) / p) := by
  have hd := Nat.div_add_mod (s + p - 1) p
  have hm : (s + p - 1) % p < p := Nat.mod_lt _ hp
  omega

theorem ceil_div_lt (p s k : Nat) (hp : 0 < p) (hk : k < (s + p - 1) / p) :
    p * k < s := by
  have h2 : (k + 1) * p ≤ s + p - 1 := (Nat.le_div_iff_mul_le hp).mp hk
  rw [Nat.succ_mul] at h2
  rw [Nat.mul_comm]
  omega

theorem calc_lgpages_spec (pagesz size : Nat) (hp : 0 < pagesz) (hs : 0 < size)
    (hsize : size ≤ 4294967296) (hpagesz : pagesz ≤ 4294967296) :
    size ≤ pagesz * 2 ^ calc_lgpages pagesz size ∧
    ∀ j, size ≤ pagesz * 2 ^ j → calc_lgpages pagesz size ≤ j := by
  have hq1 : size ≤ pagesz * ((size + pagesz - 1) / pagesz) := ceil_div_ge pagesz size hp
  have hqpos : 1 ≤ (size + pagesz - 1) / pagesz :=
    (Nat.one_le_div_iff hp).mpr (by omega)
  have hqle : (size + pagesz - 1) / pagesz ≤ size := by
    by_contra hc
    push_neg at hc
    have h3 := ceil_div_lt pagesz size size hp hc
    have h2 : size ≤ pagesz * size := Nat.le_mul_of_pos_left size hp
    omega
  have hmod1 : (size + pagesz - 1) % U64 = size + pagesz - 1 := by
    apply Nat.mod_eq_of_lt
    simp only [U64]
    omega
  have hmod2 : ((size + pagesz - 1) / pagesz + U64 - 1) % U64 =
      (size + pagesz - 1) / pagesz - 1 := by
    simp only [U64]
    omega
  by_cases hq2 : (size + pagesz - 1) / pagesz = 1
  · have hval : calc_lgpages pagesz size = 0 := by
      simp only [calc_lgpages]
      rw [hmod1, hmod2, hq2]
      have hsat0 : saturate (1 - 1) = 0 := rfl
      rw [hsat0]
      have hffsl1 : ffsl ((0 + 1) % U64) = 1 := by
        have h10 := ffsl_two_pow 0
        rw [pow_zero] at h10
        rw [(by simp only [U64] : (0 + 1) % U64 = 1), h10]
      rw [hffsl1]
    rw [hval]
    constructor
    · rw [pow_zero, Nat.mul_one]
      rw [hq2, Nat.mul_one] at hq1
      exact hq1
    · intro j _
      exact Nat.zero_le j
  · have hq2' : 2 ≤ (size + pagesz - 1) / pagesz := by omega
    have hm1 : 1 ≤ (size + pagesz - 1) / pagesz - 1 := by omega
    have hm2 : (size + pagesz - 1) / pagesz - 1 < 4294967296 := by omega
    have hsat := saturate_spec hm1 hm2
    have hLlt : ((size + pagesz - 1) / pagesz - 1).log2 < 32 := by
      rw [Nat.log2_lt (by omega)]
      calc (size + pagesz - 1) / pagesz - 1 < 4294967296 := hm2
      _ = 2 ^ 32 := by norm_num
    have hpow : 2 ^ (((size + pagesz - 1) / pagesz - 1).log2 + 1) ≤ 4294967296 := by
      calc (2 : Nat) ^ (((size + pagesz - 1) / pagesz - 1).log2 + 1) ≤ 2 ^ 32 :=
        Nat.pow_le_pow_right (by norm_num) (by omega)
      _ = 4294967296 := by norm_num
    have hpowpos := Nat.two_pow_pos (((size + pagesz - 1) / pagesz - 1).log2 + 1)
    have hmod3 : (2 ^ (((size + pagesz - 1) / pagesz - 1).log2 + 1) - 1 + 1) % U64 =
        2 ^ (((size + pagesz - 1) / pagesz - 1).log2 + 1) := by
      simp only [U64]
      omega
    have hffsl := ffsl_two_pow (((size + pagesz - 1) / pagesz - 1).log2 + 1)
    have hval : calc_lgpages pagesz size =
        ((size + pagesz - 1) / pagesz - 1).log2 + 1 := by
      simp only [calc_lgpages]
      rw [hmod1, hmod2, hsat, hmod3, hffsl]
      omega
    rw [hval]
    have hqle2 : (size + pagesz - 1) / pagesz ≤
        2 ^ (((size + pagesz - 1) / pagesz - 1).log2 + 1) := by
      have := Nat.lt_log2_self (n := (size + pagesz - 1) / pagesz - 1)
      omega
    constructor
    · calc size ≤ pagesz * ((size + pagesz - 1) / pagesz) := hq1
      _ ≤ pagesz * 2 ^ (((size + pagesz - 1) / pagesz - 1).log2 + 1) :=
        Nat.mul_le_mul_left pagesz hqle2
    · intro j hj
      by_contra hc
      push_neg at hc
      have h2j : 2 ^ j ≤ 2 ^ ((size + pagesz - 1) / pagesz - 1).log2 :=
        Nat.pow_le_pow_right (by norm_num) (by omega)
      have hlogle : 2 ^ ((size + pagesz - 1) / pagesz - 1).log2 ≤
          (size + pagesz - 1) / pagesz - 1 := Nat.log2_self_le (by omega)
      have hlt : 2 ^ j < (size + pagesz - 1) / pagesz := by omega
      have hfin := ceil_div_lt pagesz size (2 ^ j) hp hlt
      omega

/-- Claim C6: for every snaplen accepted by the CLI, the ring is initialised
with `calc_lgpages(snaplen * 3)` so that the resulting capacity
`pagesz << calc_lgpages(...)` is the least power-of-two number of pages whose
total size is at least `3 * snaplen`, and at least one page (result 0 is one
page).  The bound `3 * snaplen <= 2^32` holds for any sane kernel maximum and
keeps the `int32_t` product `snaplen * 3` free of overflow. -/
theorem calc_lgpages_least_pages (pagesz snaplen : Nat) (hp : 0 < pagesz)
    (hs : 0 < snaplen) (hb : 3 * snaplen ≤ 4294967296)
    (hpb : pagesz ≤ 4294967296) :
    1 ≤ 2 ^ calc_lgpages pagesz (3 * snaplen) ∧
    3 * snaplen ≤ pagesz * 2 ^ calc_lgpages pagesz (3 * snaplen) ∧
    ∀ j, 3 * snaplen ≤ pagesz * 2 ^ j → calc_lgpages pagesz (3 * snaplen) ≤ j := by
  obtain ⟨h1, h2⟩ := calc_lgpages_spec pagesz (3 * snaplen) hp (by omega) hb hpb
  exact ⟨Nat.one_le_two_pow, h1, h2⟩

theorem calc_lgpages_least_pages_witness :
    1 ≤ 2 ^ calc_lgpages 4096 (3 * 96) ∧
    3 * 96 ≤ 4096 * 2 ^ calc_lgpages 4096 (3 * 96) ∧
    ∀ j, 3 * 96 ≤ 4096 * 2 ^ j → calc_lgpages 4096 (3 * 96) ≤ j :=
  calc_lgpages_least_pages 4096 96 (by norm_num) (by norm_num) (by norm_num)
    (by norm_num)

/-- Claim C7: the tap CLI accepts up to 32 capture specifications; between 1
and 32 spec arguments pass the count check, and more than 32 exit with the
usage error, code 64.  (The bound constant is modelled from the spec, see
`NG_PCAP_PKT_TYPE_LENGTH`.) -/
theorem spec_count_check_bounds (n : Nat) :
    (1 ≤ n → n ≤ 32 → spec_count_check n = .ok ()) ∧
    (32 < n → spec_count_check n = .error 64) := by
  unfold spec_count_check NG_PCAP_PKT_TYPE_LENGTH
  constructor
  · intro h1 h2
    rw [if_neg (by omega), if_neg (by omega)]
  · intro h
    rw [if_neg (by omega), if_pos (by omega)]

theorem spec_count_check_bounds_witness :
    spec_count_check 1 = .ok () ∧ spec_count_check 32 = .ok () ∧
    spec_count_check 33 = .error 64 :=
  ⟨(spec_count_check_bounds 1).1 (by norm_num) (by norm_num),
   (spec_count_check_bounds 32).1 (by norm_num) (by norm_num),
   (spec_count_check_bounds 33).2 (by norm_num)⟩

/-- Claim C8 evaluation at the failing input: for any kernel snaplen bounds
`0 < minS <= maxS < 2^31`, the decimal argument `2^32 + minS` is an integer
strictly above `maxS` (out of range), yet the CLI accepts it and uses
`minS` as the snaplen: `(int32_t) strtoul(...)` truncates the value modulo
2^32 before the range checks, so the out-of-range input is neither rejected
nor used as written.  Claims that such input exits with the usage error are
therefore false. -/
theorem snaplen_wraparound_accepted (minS maxS : Int) (h1 : 0 < minS)
    (h2 : minS ≤ maxS) (h3 : maxS < 2147483648) :
    (maxS < ((4294967296 + minS.toNat : Nat) : Int)) ∧
    snaplen_of_arg minS maxS (.numeral (4294967296 + minS.toNat)) = some minS := by
  constructor
  · have : (minS.toNat : Int) = minS := Int.toNat_of_nonneg (by omega)
    push_cast
    omega
  · have hv : strtoul10 (4294967296 + minS.toNat) % U32 = minS.toNat := by
      simp only [strtoul10, U64, U32]
      omega
    have hm : toInt32 (strtoul10 (4294967296 + minS.toNat) % U32) = minS := by
      rw [hv]
      simp only [toInt32]
      rw [if_pos (by omega)]
      exact Int.toNat_of_nonneg (by omega)
    simp only [snaplen_of_arg, hm]
    rw [if_neg (by omega), if_neg (by omega)]

theorem snaplen_wraparound_accepted_witness :
    ((262144 : Int) < ((4294967296 + (68 : Int).toNat : Nat) : Int)) ∧
    snaplen_of_arg 68 262144 (.numeral (4294967296 + (68 : Int).toNat)) =
      some 68 :=
  snaplen_wraparound_accepted 68 262144 (by norm_num) (by norm_num) (by norm_num)

/-- Claim C9: classification of a failed collapse-connect in `wh_connect`:
on the wormhole peer hook, `EINVAL` selects the far-side-not-opened
diagnostic, `EDOOFUS` the would-loop diagnostic, and any other errno the
generic diagnostic quoting both endpoints; any failure on a non-wormhole
peer hook is generic as well; all exit with the data-error code 65. -/
theorem wh_connect_classification (pth path peerhook : String) (e : Nat) :
    wh_connect_classify pth path NG_WORMHOLE_HOOK EINVAL =
      (.farSideNotOpened (path ++ NG_WORMHOLE_HOOK), 65) ∧
    wh_connect_classify pth path NG_WORMHOLE_HOOK EDOOFUS = (.wouldLoop, 65) ∧
    (e ≠ EINVAL → e ≠ EDOOFUS →
      wh_connect_classify pth path NG_WORMHOLE_HOOK e =
        (.generic (pth ++ NG_WORMHOLE_HOOK) (path ++ NG_WORMHOLE_HOOK), 65)) ∧
    (peerhook ≠ NG_WORMHOLE_HOOK →
      wh_connect_classify pth path peerhook e =
        (.generic (pth ++ NG_WORMHOLE_HOOK) (path ++ peerhook), 65)) ∧
    (wh_connect_classify pth path peerhook e).2 = 65 := by
  refine ⟨?_, ?_, ?_, ?_, ?_⟩
  · simp [wh_connect_classify, EINVAL, EDOOFUS]
  · simp [wh_connect_classify, EINVAL, EDOOFUS]
  · intro hi hd
    simp [wh_connect_classify, hi, hd]
  · intro hph
    simp [wh_connect_classify, hph]
  · unfold wh_connect_classify
    split
    · rfl
    · split
      · rfl
      · split <;> rfl

theorem wh_connect_classification_witness :
    wh_connect_classify "[0000002a]:" "peernode:" NG_WORMHOLE_HOOK EINVAL =
      (.farSideNotOpened ("peernode:" ++ NG_WORMHOLE_HOOK), 65) ∧
    wh_connect_classify "[0000002a]:" "peernode:" NG_WORMHOLE_HOOK EDOOFUS =
      (.wouldLoop, 65) ∧
    wh_connect_classify "[0000002a]:" "peernode:" NG_WORMHOLE_HOOK 13 =
      (.generic ("[0000002a]:" ++ NG_WORMHOLE_HOOK)
        ("peernode:" ++ NG_WORMHOLE_HOOK), 65) ∧
    wh_connect_classify "[0000002a]:" "peernode:" "lower" 13 =
      (.generic ("[0000002a]:" ++ NG_WORMHOLE_HOOK) ("peernode:" ++ "lower"), 65) :=
  ⟨(wh_connect_classification "[0000002a]:" "peernode:" "lower" 13).1,
   (wh_connect_classification "[0000002a]:" "peernode:" "lower" 13).2.1,
   (wh_connect_classification "[0000002a]:" "peernode:" "lower" 13).2.2.1
     (by decide) (by decide),
   (wh_connect_classification "[0000002a]:" "peernode:" "lower" 13).2.2.2.1
     (by decide)⟩

/-- Claim C10: the wormhole operations treat absent optional spec components
as no-ops: `wh_name` with a NULL name sends nothing, `wh_connect` with a
NULL peer sends nothing, and `jail_name_connect` with neither a name nor a
node does not fork. -/
theorem wormhole_absent_components_noop :
    (∀ wh : Nat, wh_name wh none = []) ∧
    (∀ (wh : Nat) (ph : Option String), wh_connect_msgs wh none ph = []) ∧
    jail_name_connect_forks none none = false :=
  ⟨fun _ => rfl, fun _ _ => rfl, rfl⟩

end BongUtils
